import Mathlib

/-!
Shallow embedding of `src/worker/calculate_seasonality.py` from the
seasonality-analysis-app repository, together with theorems settling the
frozen claims about it.

Modelling conventions:
* Python `datetime` calendar dates become the `Date` structure (year, month,
  day as naturals); `datetime` comparison is lexicographic, embedded as `dlt`.
* Float arithmetic (numpy log/exp, means, comparisons) is embedded as exact
  real arithmetic over `ℝ`; the raw CSV prices are embedded as rationals.
* `pandas.Index.searchsorted` (side left) is the numpy binary search; it is
  embedded as `bisectAux`/`searchsorted`, a fuel-based rendering of the
  `while lo < hi` loop (fuel `dates.length` is enough, see the lemmas).
* Exceptions become `Except Unit`; a caught-and-ignored exception becomes an
  explicitly dropped `Except.error`.
* The external Yahoo Finance provider (`fetch_price_history`'s network call)
  is out of scope per the spec and becomes an explicit `Provider` parameter;
  `datetime.now()` becomes an explicit clock `ℕ → Date` consumed call by call,
  so that the number and position of `now()` calls is part of the model.
-/

/-- A calendar date as Python `datetime` presents it to this script:
year, month and day components. -/
structure Date where
  year : ℕ
  month : ℕ
  day : ℕ
deriving DecidableEq, Repr, Inhabited

/-- Chronological strict order on dates: Python `datetime` comparison is
lexicographic on (year, month, day). -/
def dlt (a b : Date) : Bool :=
  if a.year ≠ b.year then decide (a.year < b.year)
  else if a.month ≠ b.month then decide (a.month < b.month)
  else decide (a.day < b.day)

/-- Gregorian leap-year test, as implemented by Python `datetime`. -/
def isLeapYear (y : ℕ) : Bool :=
  (y % 4 == 0 && y % 100 != 0) || y % 400 == 0

/-- Number of days in a month, as validated by the Python `datetime`
constructor. -/
def daysInMonth (y m : ℕ) : ℕ :=
  if m = 2 then (if isLeapYear y then 29 else 28)
  else if m = 4 ∨ m = 6 ∨ m = 9 ∨ m = 11 then 30
  else 31

/-- Whether `datetime(y, m, d)` succeeds: the Python constructor raises
`ValueError` outside these bounds (in the script this matters for Feb 29
anniversaries in non-leap years). -/
def validDate (y m d : ℕ) : Bool :=
  1 ≤ y && 1 ≤ m && m ≤ 12 && 1 ≤ d && d ≤ daysInMonth y m

/-- Fuel-based rendering of the numpy `searchsorted` (side `left`) loop
`while lo < hi: mid := (lo+hi)/2; if a[mid] < v then lo := mid+1 else
hi := mid`. Each iteration shrinks `hi - lo` by at least one, so fuel
`hi - lo` suffices and the rendering agrees with the loop. -/
def bisectAux (dates : List Date) (t : Date) : ℕ → ℕ → ℕ → ℕ
  | 0, lo, _ => lo
  | fuel + 1, lo, hi =>
    if lo < hi then
      let mid := (lo + hi) / 2
      if dlt (dates.getD mid default) t then bisectAux dates t fuel (mid + 1) hi
      else bisectAux dates t fuel lo mid
    else lo

/-- `prices.index.searchsorted(target)` from the script: the insertion point
of `t` in the sorted date index, i.e. numpy bisect-left over the whole
index. -/
def searchsorted (dates : List Date) (t : Date) : ℕ :=
  bisectAux dates t dates.length 0 dates.length

/-- The metrics dictionary built by `calculate_metrics_for_ticker`
(`winRate`, `avgReturn`, `maxProfit`, `maxLoss`, `yearsOfData`). -/
structure Metrics where
  winRate : ℝ
  avgReturn : ℝ
  maxProfit : ℝ
  maxLoss : ℝ
  yearsOfData : ℕ

/-- A metrics dictionary after `metrics['ticker'] = ticker` in `run_scan`:
the record the script appends to a permutation bucket. -/
structure MetricsRecord where
  ticker : String
  winRate : ℝ
  avgReturn : ℝ
  maxProfit : ℝ
  maxLoss : ℝ
  yearsOfData : ℕ

/-- `metrics['ticker'] = ticker` followed by the append in `run_scan`. -/
def tagRecord (t : String) (m : Metrics) : MetricsRecord :=
  ⟨t, m.winRate, m.avgReturn, m.maxProfit, m.maxLoss, m.yearsOfData⟩

/-- One year's body of the `for year in range(...)` loop in
`calculate_metrics_for_ticker`: build the anniversary target
`datetime(year, today.month, today.day)`, locate it with `searchsorted`,
step `forward_days` trading days ahead, and if the end index is in bounds
and the start price positive, record the numpy log return. `none` is the
silent skip (no sample for this year). Date-validity of the target is
checked by the caller, because in the script the `datetime` constructor
runs before the `try` block. -/
noncomputable def yearLogReturn (prices : List (Date × ℚ)) (forward_days : ℕ)
    (today : Date) (y : ℕ) : Option ℝ :=
  let target : Date := ⟨y, today.month, today.day⟩
  let actual_start_idx := searchsorted (prices.map Prod.fst) target
  let actual_end_idx := actual_start_idx + forward_days
  if actual_end_idx < prices.length then
    let start_price := (prices.getD actual_start_idx default).2
    let end_price := (prices.getD actual_end_idx default).2
    if 0 < start_price then
      some (Real.log ((end_price : ℝ) / (start_price : ℝ)))
    else none
  else none

/-- The whole `for year in range(min_year, today.year)` loop accumulating
`all_returns`. Constructing `datetime(year, today.month, today.day)` happens
outside the `try`, so an invalid anniversary date (Feb 29 in a non-leap
year) raises out of `calculate_metrics_for_ticker` entirely: that is the
`Except.error` case. -/
noncomputable def collectReturns (prices : List (Date × ℚ)) (forward_days : ℕ)
    (today : Date) : List ℕ → Except Unit (List ℝ)
  | [] => Except.ok []
  | y :: ys =>
    if validDate y today.month today.day then
      match yearLogReturn prices forward_days today y,
          collectReturns prices forward_days today ys with
      | _, Except.error e => Except.error e
      | some lr, Except.ok rest => Except.ok (lr :: rest)
      | none, Except.ok rest => Except.ok rest
    else Except.error ()

/-- `prices.index.year.min()`: the smallest calendar year appearing in the
price index (only used on a nonempty series; on an empty one the script
raises before reaching the loop). -/
def minYear (prices : List (Date × ℚ)) : ℕ :=
  match prices with
  | [] => 0
  | p :: ps => ps.foldl (fun acc q => Nat.min acc q.1.year) p.1.year

/-- `range(min_year, today.year)` from the script. -/
def yearsRange (startYear endYear : ℕ) : List ℕ :=
  List.range' startYear (endYear - startYear)

/-- `[(np.exp(lr) - 1) * 100 for lr in all_returns]`. -/
noncomputable def percentReturns (lrs : List ℝ) : List ℝ :=
  lrs.map (fun lr => (Real.exp lr - 1) * 100)

open Classical in
/-- `(len([r for r in percent_returns if r > 0]) / len(percent_returns)) * 100`. -/
noncomputable def winRateOf (prs : List ℝ) : ℝ :=
  (((prs.filter (fun r => decide (0 < r))).length : ℝ) / (prs.length : ℝ)) * 100

/-- `np.mean(percent_returns)`. -/
noncomputable def meanOf (prs : List ℝ) : ℝ :=
  prs.sum / (prs.length : ℝ)

/-- `np.max` over a nonempty list of floats. -/
noncomputable def listMax : List ℝ → ℝ
  | [] => 0
  | x :: xs => xs.foldl max x

/-- `np.min` over a nonempty list of floats. -/
noncomputable def listMin : List ℝ → ℝ
  | [] => 0
  | x :: xs => xs.foldl min x

/-- `calculate_metrics_for_ticker(prices, forward_months)` with the
`datetime.now()` it reads passed in as `today`. On an empty series the
script raises inside `prices.index.year.min()` / `range`, hence
`Except.error`; a propagated anniversary `ValueError` is also an error;
otherwise the script returns `None` exactly when `all_returns` stayed
empty, else the metrics dictionary. -/
noncomputable def calculate_metrics_for_ticker (prices : List (Date × ℚ))
    (forward_months : ℕ) (today : Date) : Except Unit (Option Metrics) :=
  let forward_days := forward_months * 21
  if prices.isEmpty then Except.error ()
  else
    match collectReturns prices forward_days today
        (yearsRange (minYear prices) today.year) with
    | Except.error e => Except.error e
    | Except.ok all_returns =>
      if all_returns.isEmpty then Except.ok none
      else
        Except.ok (some
          { winRate := winRateOf (percentReturns all_returns)
            avgReturn := meanOf (percentReturns all_returns)
            maxProfit := listMax (percentReturns all_returns)
            maxLoss := listMin (percentReturns all_returns)
            yearsOfData := all_returns.length })

/-- `FORWARD_PERIODS_MONTHS = [1, 2, 3]` from the script's configuration. -/
def FORWARD_PERIODS_MONTHS : List ℕ := [1, 2, 3]

/-- `LOOKBACK_PERIODS_YEARS = [5, 10, 20]` from the script's configuration. -/
def LOOKBACK_PERIODS_YEARS : List ℕ := [5, 10, 20]

/-- The `(lookback, forward)` pairs in the exact nesting order of
`run_scan`: outer loop over `LOOKBACK_PERIODS_YEARS` as listed, inner loop
over `FORWARD_PERIODS_MONTHS` as listed. -/
def permPairs : List (ℕ × ℕ) :=
  LOOKBACK_PERIODS_YEARS.flatMap (fun lb => FORWARD_PERIODS_MONTHS.map (fun fw => (lb, fw)))

/-- The permutation key string built by the script. -/
def permKey (lb fw : ℕ) : String := s!"{fw}m_{lb}y"

/-- Python `str.strip()`: drop leading and trailing whitespace. -/
def pyStrip (s : String) : String :=
  String.mk (((s.data.dropWhile Char.isWhitespace).reverse.dropWhile
    Char.isWhitespace).reverse)

/-- `[line.strip() for line in f.readlines() if line.strip()]`: the ticker
list read from the ticker file, given its raw lines (a stripped blank line
is falsy in Python and filtered out). -/
def parseTickers (lines : List String) : List String :=
  lines.filterMap (fun l => if pyStrip l = "" then none else some (pyStrip l))

/-- The external price-history provider: `fetch_price_history(ticker, years)`
up to its `datetime.now()` read, which is passed as the third argument
(the fetched window ends at that instant). A raised `requests`/HTTP error
is `Except.error`. -/
def Provider : Type := String → ℕ → Date → Except Unit (List (Date × ℚ))

/-- Whether an `Except` result is a success. -/
def exceptOk {α : Type} : Except Unit α → Bool
  | Except.ok _ => true
  | Except.error _ => false

/-- One iteration of the inner `for ticker in tickers` loop of `run_scan`,
for one `(lookback, forward)` permutation: try to fetch (one `now()` read,
one provider call), then compute metrics (one more `now()` read); any raised
exception is caught and the ticker skipped. Returns the advanced `now()`
call counter, the provider-call trace of this iteration, and the metrics
if any were produced. -/
noncomputable def scanTicker (p : Provider) (c : ℕ → Date) (cnt lb fw : ℕ)
    (ticker : String) : ℕ × List (String × ℕ) × Option Metrics :=
  match p ticker lb (c cnt) with
  | Except.error _ => (cnt + 1, [(ticker, lb)], none)
  | Except.ok prices =>
    match calculate_metrics_for_ticker prices fw (c (cnt + 1)) with
    | Except.error _ => (cnt + 2, [(ticker, lb)], none)
    | Except.ok mo => (cnt + 2, [(ticker, lb)], mo)

/-- The whole `for ticker in tickers` loop for one permutation: the bucket
`all_results[key]` receives, in ticker order, one tagged record per ticker
whose metrics came back truthy. -/
noncomputable def scanTickers (p : Provider) (c : ℕ → Date) (lb fw : ℕ) :
    List String → ℕ → ℕ × List (String × ℕ) × List MetricsRecord
  | [], cnt => (cnt, [], [])
  | t :: ts, cnt =>
    let r1 := scanTicker p c cnt lb fw t
    let r2 := scanTickers p c lb fw ts r1.1
    (r2.1, r1.2.1 ++ r2.2.1,
      (match r1.2.2 with
       | some m => [tagRecord t m]
       | none => []) ++ r2.2.2)

/-- The nested permutation loops of `run_scan`: for each `(lookback,
forward)` pair in order, create the key, process every ticker, and record
the bucket. Python dicts preserve insertion order, so the result dict is an
association list in loop order. -/
noncomputable def scanPerms (p : Provider) (c : ℕ → Date) (ts : List String) :
    List (ℕ × ℕ) → ℕ → ℕ × List (String × ℕ) × List (String × List MetricsRecord)
  | [], cnt => (cnt, [], [])
  | pr :: rest, cnt =>
    let r1 := scanTickers p c pr.1 pr.2 ts cnt
    let r2 := scanPerms p c ts rest r1.1
    (r2.1, r1.2.1 ++ r2.2.1, (permKey pr.1 pr.2, r1.2.2) :: r2.2.2)

/-- `run_scan()`: the `all_results` dictionary it builds and serializes,
given the provider, the `datetime.now()` clock, and the raw ticker-file
lines. -/
noncomputable def run_scan (p : Provider) (c : ℕ → Date) (lines : List String) :
    List (String × List MetricsRecord) :=
  (scanPerms p c (parseTickers lines) permPairs 0).2.2

/-- The sequence of provider calls `(ticker, years_of_data)` a run makes,
in order. -/
noncomputable def runFetchTrace (p : Provider) (c : ℕ → Date)
    (lines : List String) : List (String × ℕ) :=
  (scanPerms p c (parseTickers lines) permPairs 0).2.1

/-- How many times `datetime.now()` is read during a run. -/
noncomputable def runNowCalls (p : Provider) (c : ℕ → Date)
    (lines : List String) : ℕ :=
  (scanPerms p c (parseTickers lines) permPairs 0).1

/-- The record a given ticker contributes to the bucket of a given
permutation when every `now()` read returns the same date `d`: fetch, then
metrics, then tagging; `none` on any failure or on a `None` metrics
result. -/
noncomputable def tickRecord (p : Provider) (d : Date) (lb fw : ℕ)
    (t : String) : Option MetricsRecord :=
  match p t lb d with
  | Except.error _ => none
  | Except.ok prices =>
    match calculate_metrics_for_ticker prices fw d with
    | Except.error _ => none
    | Except.ok none => none
    | Except.ok (some m) => some (tagRecord t m)

/-- The nine permutation keys in the order `run_scan` creates them. -/
def permKeyStrings : List String :=
  ["1m_5y", "2m_5y", "3m_5y", "1m_10y", "2m_10y", "3m_10y",
   "1m_20y", "2m_20y", "3m_20y"]

/-- Whether a `calculate_metrics_for_ticker` outcome is a produced metrics
dictionary (as opposed to `None` or a raised exception). -/
def producesRecord : Except Unit (Option Metrics) → Bool
  | Except.ok (some _) => true
  | _ => false

/-- `winRate` of a produced metrics dictionary, `0` otherwise. -/
def recWinRate : Except Unit (Option Metrics) → ℝ
  | Except.ok (some m) => m.winRate
  | _ => 0

/-- `avgReturn` of a produced metrics dictionary, `0` otherwise. -/
def recAvg : Except Unit (Option Metrics) → ℝ
  | Except.ok (some m) => m.avgReturn
  | _ => 0

/-- `maxProfit` of a produced metrics dictionary, `0` otherwise. -/
def recMaxProfit : Except Unit (Option Metrics) → ℝ
  | Except.ok (some m) => m.maxProfit
  | _ => 0

/-- `maxLoss` of a produced metrics dictionary, `0` otherwise. -/
def recMaxLoss : Except Unit (Option Metrics) → ℝ
  | Except.ok (some m) => m.maxLoss
  | _ => 0

/-- `yearsOfData` of a produced metrics dictionary, `0` otherwise. -/
def recYears : Except Unit (Option Metrics) → ℕ
  | Except.ok (some m) => m.yearsOfData
  | _ => 0

/-- Unfolding characterisation of the chronological order on dates. -/
theorem dlt_iff (a b : Date) : dlt a b = true ↔
    (a.year < b.year ∨ (a.year = b.year ∧
      (a.month < b.month ∨ (a.month = b.month ∧ a.day < b.day)))) := by
  unfold dlt
  split_ifs <;> simp <;> omega

/-- Transitivity of the chronological order. -/
theorem dlt_trans {a b c : Date} (h1 : dlt a b = true) (h2 : dlt b c = true) :
    dlt a c = true := by
  rw [dlt_iff] at h1 h2 ⊢
  omega

/-- Irreflexivity of the chronological order. -/
theorem dlt_irrefl (a : Date) : dlt a a = false := by
  unfold dlt
  simp

/-- The strictly-increasing-dates invariant of a price index. -/
def DatesSorted (dates : List Date) : Prop :=
  dates.Pairwise (fun a b => dlt a b = true)

/-- Sortedness at the level of positional access with a default. -/
theorem sorted_getD {dates : List Date} (hs : DatesSorted dates)
    {i j : ℕ} (hij : i < j) (hj : j < dates.length) :
    dlt (dates.getD i default) (dates.getD j default) = true := by
  have hi : i < dates.length := lt_trans hij hj
  rw [List.getD_eq_getElem dates default hi, List.getD_eq_getElem dates default hj]
  exact (List.pairwise_iff_getElem.mp hs) i j hi hj hij

/-- Unfolding equation for one iteration of the bisect-left loop. -/
theorem bisectAux_succ (dates : List Date) (t : Date) (fuel lo hi : ℕ) :
    bisectAux dates t (fuel + 1) lo hi =
      if lo < hi then
        (if dlt (dates.getD ((lo + hi) / 2) default) t then
          bisectAux dates t fuel ((lo + hi) / 2 + 1) hi
        else bisectAux dates t fuel lo ((lo + hi) / 2))
      else lo := rfl

/-- Loop invariant of the bisect-left loop: starting from a window
`[lo, hi)` whose left part is all `< t` and whose right part is all `≥ t`,
with enough fuel for the window, the loop lands on the boundary. -/
theorem bisectAux_spec (dates : List Date) (t : Date)
    (hs : DatesSorted dates) :
    ∀ fuel lo hi, hi - lo ≤ fuel → lo ≤ hi → hi ≤ dates.length →
    (∀ i, i < lo → dlt (dates.getD i default) t = true) →
    (∀ i, hi ≤ i → i < dates.length → dlt (dates.getD i default) t = false) →
    lo ≤ bisectAux dates t fuel lo hi ∧ bisectAux dates t fuel lo hi ≤ hi ∧
    (∀ i, i < bisectAux dates t fuel lo hi →
      dlt (dates.getD i default) t = true) ∧
    (∀ i, bisectAux dates t fuel lo hi ≤ i → i < dates.length →
      dlt (dates.getD i default) t = false) := by
  intro fuel
  induction fuel with
  | zero =>
    intro lo hi hfuel hlh hhi h4 h5
    have hb : bisectAux dates t 0 lo hi = lo := rfl
    rw [hb]
    refine ⟨Nat.le_refl lo, hlh, h4, ?_⟩
    intro i hi1 hi2
    exact h5 i (by omega) hi2
  | succ fuel ih =>
    intro lo hi hfuel hlh hhi h4 h5
    by_cases hcond : lo < hi
    · have hmid1 : lo ≤ (lo + hi) / 2 := by omega
      have hmid2 : (lo + hi) / 2 < hi := by omega
      have hmidlen : (lo + hi) / 2 < dates.length := by omega
      cases hcmp : dlt (dates.getD ((lo + hi) / 2) default) t with
      | true =>
        have hgoal : bisectAux dates t (fuel + 1) lo hi =
            bisectAux dates t fuel ((lo + hi) / 2 + 1) hi := by
          rw [bisectAux_succ, if_pos hcond, if_pos hcmp]
        rw [hgoal]
        have hnew4 : ∀ i, i < (lo + hi) / 2 + 1 →
            dlt (dates.getD i default) t = true := by
          intro i hi1
          rcases Nat.lt_or_ge i ((lo + hi) / 2) with hlt | hge
          · exact dlt_trans (sorted_getD hs hlt hmidlen) hcmp
          · have heq : i = (lo + hi) / 2 := by omega
            rw [heq]
            exact hcmp
        have hrec := ih ((lo + hi) / 2 + 1) hi (by omega) (by omega) hhi hnew4 h5
        exact ⟨by omega, hrec.2.1, hrec.2.2.1, hrec.2.2.2⟩
      | false =>
        have hgoal : bisectAux dates t (fuel + 1) lo hi =
            bisectAux dates t fuel lo ((lo + hi) / 2) := by
          rw [bisectAux_succ, if_pos hcond, if_neg (by rw [hcmp]; simp)]
        rw [hgoal]
        have hnew5 : ∀ i, (lo + hi) / 2 ≤ i → i < dates.length →
            dlt (dates.getD i default) t = false := by
          intro i hi1 hi2
          rcases Nat.eq_or_lt_of_le hi1 with heq | hlt
          · rw [← heq]
            exact hcmp
          · cases hbad : dlt (dates.getD i default) t with
            | false => rfl
            | true =>
              have hcontra := dlt_trans (sorted_getD hs hlt hi2) hbad
              rw [hcontra] at hcmp
              exact absurd hcmp (by simp)
        have hrec := ih lo ((lo + hi) / 2) (by omega) (by omega) (by omega) h4 hnew5
        exact ⟨hrec.1, by omega, hrec.2.2.1, hrec.2.2.2⟩
    · have hgoal : bisectAux dates t (fuel + 1) lo hi = lo := by
        rw [bisectAux_succ, if_neg hcond]
      rw [hgoal]
      refine ⟨Nat.le_refl lo, hlh, h4, ?_⟩
      intro i hi1 hi2
      exact h5 i (by omega) hi2

/-- Claim C6 (confirmed): for every price series with strictly increasing
dates and every target date `t`, `searchsorted` (the script's anniversary
lookup) returns the smallest index `i` with `series[i].date ≥ t` — every
earlier index has date `< t`, the returned index (when in range) has date
`≥ t` — and returns the sentinel `dates.length` when no date is `≥ t`. -/
theorem searchsorted_returns_first_index_ge (dates : List Date) (t : Date)
    (hs : DatesSorted dates) :
    searchsorted dates t ≤ dates.length ∧
    (∀ i, i < searchsorted dates t → dlt (dates.getD i default) t = true) ∧
    (searchsorted dates t < dates.length →
      dlt (dates.getD (searchsorted dates t) default) t = false) ∧
    ((∀ i, i < dates.length → dlt (dates.getD i default) t = true) →
      searchsorted dates t = dates.length) := by
  have h := bisectAux_spec dates t hs dates.length 0 dates.length
    (by omega) (by omega) (Nat.le_refl _)
    (by intro i hi; exact absurd hi (Nat.not_lt_zero i))
    (by intro i h1 h2; exact absurd (Nat.lt_of_le_of_lt h1 h2) (lt_irrefl _))
  unfold searchsorted
  refine ⟨h.2.1, h.2.2.1, ?_, ?_⟩
  · intro hlt
    exact h.2.2.2 _ (Nat.le_refl _) hlt
  · intro hall
    by_contra hne
    have hlt : bisectAux dates t dates.length 0 dates.length < dates.length :=
      Nat.lt_of_le_of_ne h.2.1 hne
    have hfalse := h.2.2.2 _ (Nat.le_refl _) hlt
    rw [hall _ hlt] at hfalse
    exact absurd hfalse (by simp)

/-- A concrete sorted four-sample date index used to witness the
anniversary-lookup theorem. -/
def datesC6 : List Date :=
  [⟨2020, 1, 2⟩, ⟨2020, 3, 4⟩, ⟨2021, 6, 15⟩, ⟨2022, 6, 14⟩]

/-- Witness for claim C6: on a concrete strictly increasing index the
lookup of 2021-01-01 lands at index 2, the previous date is smaller and
the found date is not smaller. -/
theorem searchsorted_first_ge_witness :
    searchsorted datesC6 ⟨2021, 1, 1⟩ = 2 ∧
    dlt (datesC6.getD 1 default) ⟨2021, 1, 1⟩ = true ∧
    dlt (datesC6.getD 2 default) ⟨2021, 1, 1⟩ = false := by
  have h := searchsorted_returns_first_index_ge datesC6 ⟨2021, 1, 1⟩
    (by unfold DatesSorted; decide)
  have he : searchsorted datesC6 ⟨2021, 1, 1⟩ = 2 := by decide
  rw [he] at h
  exact ⟨he, h.2.1 1 (by omega), h.2.2.1 (by decide)⟩

/-- Claim C2 (amended): a year contributes a forward-return sample exactly
when its end index `startIdx + forward_days` is strictly less than the
series length (so an end index of exactly `len(series) - 1` DOES contribute)
and the start price is positive; a year whose end index is `≥ len(series)`
is skipped silently (an absent sample, not an error). -/
theorem year_sample_produced_iff (prices : List (Date × ℚ)) (fd : ℕ)
    (today : Date) (y : ℕ) :
    (yearLogReturn prices fd today y).isSome = true ↔
      (searchsorted (prices.map Prod.fst) ⟨y, today.month, today.day⟩ + fd
          < prices.length ∧
       0 < (prices.getD
          (searchsorted (prices.map Prod.fst) ⟨y, today.month, today.day⟩)
          default).2) := by
  simp only [yearLogReturn]
  split_ifs with h1 h2 <;> simp_all

/-- A concrete 22-sample flat series starting 2023-06-15: with reference
date 2024-06-15 and a one-month forward window, the single eligible year
2023 has start index 0 and end index 21 = length - 1. -/
def pricesC2 : List (Date × ℚ) :=
  [(⟨2023, 6, 15⟩, 5),
   (⟨2023, 6, 16⟩, 5),
   (⟨2023, 6, 17⟩, 5),
   (⟨2023, 6, 18⟩, 5),
   (⟨2023, 6, 19⟩, 5),
   (⟨2023, 6, 20⟩, 5),
   (⟨2023, 6, 21⟩, 5),
   (⟨2023, 6, 22⟩, 5),
   (⟨2023, 6, 23⟩, 5),
   (⟨2023, 6, 24⟩, 5),
   (⟨2023, 6, 25⟩, 5),
   (⟨2023, 6, 26⟩, 5),
   (⟨2023, 6, 27⟩, 5),
   (⟨2023, 6, 28⟩, 5),
   (⟨2023, 6, 29⟩, 5),
   (⟨2023, 6, 30⟩, 5),
   (⟨2023, 7, 1⟩, 5),
   (⟨2023, 7, 2⟩, 5),
   (⟨2023, 7, 3⟩, 5),
   (⟨2023, 7, 4⟩, 5),
   (⟨2023, 7, 5⟩, 5),
   (⟨2023, 7, 6⟩, 5)]

/-- Counterexample to claim C2 as stated: a series whose only eligible
anniversary year has forward end index exactly `len(series) - 1` — the
claim says no metrics record is produced, but the script's bounds check
`end index < len(series)` admits this year, so a record IS produced. -/
theorem year_boundary_counterexample :
    yearsRange (minYear pricesC2) (2024 : ℕ) = [2023] ∧
    searchsorted (pricesC2.map Prod.fst) ⟨2023, 6, 15⟩ + 1 * 21
      = pricesC2.length - 1 ∧
    producesRecord (calculate_metrics_for_ticker pricesC2 1 ⟨2024, 6, 15⟩)
      = true := by
  refine ⟨by decide, by decide, ?_⟩
  rfl

/-- Each ticker iteration makes exactly one provider call, fetching the
current permutation's lookback window. -/
theorem scanTicker_trace (p : Provider) (c : ℕ → Date) (cnt lb fw : ℕ)
    (t : String) : (scanTicker p c cnt lb fw t).2.1 = [(t, lb)] := by
  unfold scanTicker
  cases hp : p t lb (c cnt) with
  | error e => rfl
  | ok prices =>
    dsimp only
    cases hm : calculate_metrics_for_ticker prices fw (c (cnt + 1)) with
    | error e => rfl
    | ok mo => rfl

/-- The ticker loop of one permutation calls the provider once per ticker,
in ticker order, always with that permutation's lookback window. -/
theorem scanTickers_trace (p : Provider) (c : ℕ → Date) (lb fw : ℕ) :
    ∀ ts cnt, (scanTickers p c lb fw ts cnt).2.1 = ts.map (fun t => (t, lb)) := by
  intro ts
  induction ts with
  | nil => intro cnt; rfl
  | cons t ts ih =>
    intro cnt
    simp only [scanTickers]
    rw [scanTicker_trace, ih]
    rfl

/-- Across permutations, the provider-call trace is the concatenation of
each permutation's per-ticker calls. -/
theorem scanPerms_trace (p : Provider) (c : ℕ → Date) (ts : List String) :
    ∀ perms cnt, (scanPerms p c ts perms cnt).2.1 =
      perms.flatMap (fun pr => ts.map (fun t => (t, pr.1))) := by
  intro perms
  induction perms with
  | nil => intro cnt; rfl
  | cons pr rest ih =>
    intro cnt
    simp only [scanPerms]
    rw [scanTickers_trace, ih]
    simp [List.flatMap_cons]

/-- The permutation keys of the result dictionary are, in insertion order,
exactly the keys of the configured pairs, for any clock and provider. -/
theorem scanPerms_keys (p : Provider) (c : ℕ → Date) (ts : List String) :
    ∀ perms cnt, ((scanPerms p c ts perms cnt).2.2).map Prod.fst =
      perms.map (fun pr => permKey pr.1 pr.2) := by
  intro perms
  induction perms with
  | nil => intro cnt; rfl
  | cons pr rest ih =>
    intro cnt
    simp only [scanPerms, List.map_cons]
    rw [ih]

/-- Counter bookkeeping for one ticker iteration: `datetime.now()` is read
once by the fetch, and once more by the metrics computation when the fetch
succeeded. -/
theorem scanTicker_cnt (p : Provider) (c : ℕ → Date) (cnt lb fw : ℕ)
    (t : String) : (scanTicker p c cnt lb fw t).1 =
      cnt + cond (exceptOk (p t lb (c cnt))) 2 1 := by
  unfold scanTicker exceptOk
  cases hp : p t lb (c cnt) with
  | error e => rfl
  | ok prices =>
    dsimp only
    cases hm : calculate_metrics_for_ticker prices fw (c (cnt + 1)) with
    | error e => rfl
    | ok mo => rfl

/-- Counter bookkeeping for a whole ticker loop under a clock that always
returns the same date. -/
theorem scanTickers_cnt (p : Provider) (d : Date) (c : ℕ → Date)
    (hc : ∀ n, c n = d) (lb fw : ℕ) :
    ∀ ts cnt, (scanTickers p c lb fw ts cnt).1 =
      cnt + (ts.map (fun t => cond (exceptOk (p t lb d)) 2 1)).sum := by
  intro ts
  induction ts with
  | nil => intro cnt; simp [scanTickers]
  | cons t ts ih =>
    intro cnt
    simp only [scanTickers]
    rw [ih, scanTicker_cnt, hc cnt]
    simp [List.sum_cons]
    omega

/-- Counter bookkeeping across all permutations under a clock that always
returns the same date. -/
theorem scanPerms_cnt (p : Provider) (d : Date) (c : ℕ → Date)
    (hc : ∀ n, c n = d) (ts : List String) :
    ∀ perms cnt, (scanPerms p c ts perms cnt).1 =
      cnt + (perms.map (fun pr =>
        (ts.map (fun t => cond (exceptOk (p t pr.1 d)) 2 1)).sum)).sum := by
  intro perms
  induction perms with
  | nil => intro cnt; simp [scanPerms]
  | cons pr rest ih =>
    intro cnt
    simp only [scanPerms]
    rw [ih, scanTickers_cnt p d c hc]
    simp [List.sum_cons]
    omega

/-- Under a clock that always returns `d`, one ticker iteration produces
exactly the record `tickRecord` describes. -/
theorem scanTickers_records (p : Provider) (d : Date) (c : ℕ → Date)
    (hc : ∀ n, c n = d) (lb fw : ℕ) :
    ∀ ts cnt, (scanTickers p c lb fw ts cnt).2.2 =
      ts.filterMap (tickRecord p d lb fw) := by
  intro ts
  induction ts with
  | nil => intro cnt; rfl
  | cons t ts ih =>
    intro cnt
    simp only [scanTickers]
    rw [ih]
    simp only [scanTicker, hc]
    cases hp : p t lb d with
    | error e => simp [tickRecord, hp, List.filterMap_cons]
    | ok prices =>
      dsimp only
      cases hm : calculate_metrics_for_ticker prices fw d with
      | error e => simp [tickRecord, hp, hm, List.filterMap_cons]
      | ok mo =>
        cases mo with
        | none => simp [tickRecord, hp, hm, List.filterMap_cons]
        | some m => simp [tickRecord, hp, hm, List.filterMap_cons]

/-- Under a clock that always returns `d`, the result dictionary is, key by
key in loop order, the ticker list filtered down to the tickers that
produced a record, in ticker order. -/
theorem scanPerms_records (p : Provider) (d : Date) (c : ℕ → Date)
    (hc : ∀ n, c n = d) (ts : List String) :
    ∀ perms cnt, (scanPerms p c ts perms cnt).2.2 =
      perms.map (fun pr => (permKey pr.1 pr.2,
        ts.filterMap (tickRecord p d pr.1 pr.2))) := by
  intro perms
  induction perms with
  | nil => intro cnt; rfl
  | cons pr rest ih =>
    intro cnt
    simp only [scanPerms, List.map_cons]
    rw [ih, scanTickers_records p d c hc]

/-- Full characterisation of `run_scan` under a fixed reference date. -/
theorem run_scan_char (p : Provider) (d : Date) (c : ℕ → Date)
    (hc : ∀ n, c n = d) (lines : List String) :
    run_scan p c lines = permPairs.map (fun pr => (permKey pr.1 pr.2,
      (parseTickers lines).filterMap (tickRecord p d pr.1 pr.2))) := by
  unfold run_scan
  rw [scanPerms_records p d c hc]

/-- A provider for which every fetch raises (e.g. every symbol invalid). -/
def failProvider : Provider := fun _ _ _ => Except.error ()

/-- A clock that always reports 2024-06-15. -/
def refClock : ℕ → Date := fun _ => ⟨2024, 6, 15⟩

/-- Claim C1 (amended): the provider is called once per (lookback, forward)
permutation per instrument — with the configured grid, nine times per
instrument per run, not once — and each call fetches that permutation's own
lookback window (not the maximum): the full provider-call trace of a run is
the cross product of permutation pairs and tickers, in loop order. -/
theorem provider_called_per_permutation (p : Provider) (c : ℕ → Date)
    (lines : List String) :
    runFetchTrace p c lines =
      permPairs.flatMap (fun pr => (parseTickers lines).map (fun t => (t, pr.1))) := by
  unfold runFetchTrace
  rw [scanPerms_trace]

/-- Counterexample to claim C1 as stated: in a run over the single ticker
AAA the provider is not called exactly once for AAA (it is called nine
times, once per permutation). -/
theorem provider_not_called_once_counterexample :
    ¬ ((runFetchTrace failProvider refClock ["AAA"]).countP
        (fun e => e.1 == "AAA") = 1) := by
  decide

/-- Claim C3 (amended): the scan output is a flat mapping from permutation
key to record list, with no asset-class level, and its keys are generated
as the cross product of the lookback windows in their configured ascending
order [5, 10, 20] (outer loop) and the forward windows in ascending order
[1, 2, 3] (inner loop). -/
theorem scan_output_flat_ascending_keys (p : Provider) (c : ℕ → Date)
    (lines : List String) :
    (run_scan p c lines).map Prod.fst = permKeyStrings := by
  unfold run_scan
  rw [scanPerms_keys]
  rfl

/-- Counterexample to claim C3 as stated: the key list of a concrete run is
not the cross product with lookback windows iterated in descending order. -/
theorem scan_keys_not_descending_counterexample :
    (run_scan failProvider refClock ["AAA"]).map Prod.fst ≠
      ["1m_20y", "2m_20y", "3m_20y", "1m_10y", "2m_10y", "3m_10y",
       "1m_5y", "2m_5y", "3m_5y"] := by
  decide

/-- Claim C4 (amended): `datetime.now()` is not captured once per run; it
is read once at every provider fetch and once more at every metrics
computation, so under a clock that always returns `d` a run reads it
twice per (permutation, ticker) pair whose fetch succeeds and once per
pair whose fetch fails. -/
theorem now_read_per_fetch_and_metrics (p : Provider) (d : Date)
    (c : ℕ → Date) (lines : List String) (hc : ∀ n, c n = d) :
    runNowCalls p c lines =
      (permPairs.map (fun pr => ((parseTickers lines).map
        (fun t => cond (exceptOk (p t pr.1 d)) 2 1)).sum)).sum := by
  unfold runNowCalls
  rw [scanPerms_cnt p d c hc]
  omega

/-- Witness for the amended claim C4: a run over one ticker whose every
fetch fails reads the clock nine times (once per permutation). -/
theorem now_read_nine_times_witness :
    runNowCalls failProvider refClock ["AAA"] = 9 := by
  have h := now_read_per_fetch_and_metrics failProvider ⟨2024, 6, 15⟩
    refClock ["AAA"] (fun n => rfl)
  rw [h]
  decide

/-- Counterexample to claim C4 as stated: the reference instant is not
captured exactly once per run. -/
theorem now_not_captured_once_counterexample :
    ¬ (runNowCalls failProvider refClock ["AAA"] = 1) := by
  decide

/-- Dropping an element that a filterMap function sends to `none` does not
change the filterMap. -/
theorem filterMap_skip_failing (f : String → Option MetricsRecord)
    (t : String) (hft : f t = none) :
    ∀ l : List String, l.filterMap f = (l.filter (fun s => s != t)).filterMap f := by
  intro l
  induction l with
  | nil => rfl
  | cons a l ih =>
    by_cases ha : a = t
    · subst ha
      simp [List.filterMap_cons, hft, List.filter_cons, ih]
    · simp [List.filterMap_cons, List.filter_cons, ha, ih]

/-- A produced record carries the ticker it was produced for. -/
theorem tickRecord_ticker (p : Provider) (d : Date) (lb fw : ℕ) (s : String)
    (r : MetricsRecord) (h : tickRecord p d lb fw s = some r) : r.ticker = s := by
  unfold tickRecord at h
  revert h
  cases hp : p s lb d with
  | error e =>
    intro h
    exact absurd h (by simp)
  | ok prices =>
    dsimp only
    cases hm : calculate_metrics_for_ticker prices fw d with
    | error e =>
      intro h
      exact absurd h (by simp)
    | ok mo =>
      cases mo with
      | none =>
        intro h
        exact absurd h (by simp)
      | some m =>
        intro h
        have hr := Option.some.inj h
        rw [← hr]
        rfl

/-- Claim C5 (confirmed): under a fixed reference date, if every fetch for
one ticker `t` fails, the run still produces the full key structure, every
bucket contains exactly the records of the remaining tickers (in order),
and no record of `t` appears anywhere — the failure is isolated and the
run is not aborted. -/
theorem instrument_failure_isolated (p : Provider) (d : Date) (c : ℕ → Date)
    (lines : List String) (t : String) (hc : ∀ n, c n = d)
    (hfail : ∀ lb, p t lb d = Except.error ()) :
    (run_scan p c lines).map Prod.fst = permKeyStrings ∧
    run_scan p c lines = permPairs.map (fun pr => (permKey pr.1 pr.2,
      ((parseTickers lines).filter (fun s => s != t)).filterMap
        (tickRecord p d pr.1 pr.2))) ∧
    (∀ kl ∈ run_scan p c lines, ∀ r ∈ kl.2, r.ticker ≠ t) := by
  have hchar := run_scan_char p d c hc lines
  have htnone : ∀ lb fw, tickRecord p d lb fw t = none := by
    intro lb fw
    unfold tickRecord
    rw [hfail lb]
  have h2 : run_scan p c lines = permPairs.map (fun pr => (permKey pr.1 pr.2,
      ((parseTickers lines).filter (fun s => s != t)).filterMap
        (tickRecord p d pr.1 pr.2))) := by
    rw [hchar]
    apply List.map_congr_left
    intro pr hpr
    rw [filterMap_skip_failing (tickRecord p d pr.1 pr.2) t (htnone pr.1 pr.2)]
  refine ⟨?_, h2, ?_⟩
  · unfold run_scan
    rw [scanPerms_keys]
    rfl
  · intro kl hkl r hr
    rw [h2] at hkl
    obtain ⟨pr, hpr, hklr⟩ := List.mem_map.mp hkl
    rw [← hklr] at hr
    dsimp only at hr
    obtain ⟨s, hsmem, hsome⟩ := List.mem_filterMap.mp hr
    have hst : s ≠ t := by
      have hfil := List.of_mem_filter hsmem
      simpa using hfil
    rw [tickRecord_ticker p d pr.1 pr.2 s r hsome]
    exact hst

/-- Witness for claim C5: a concrete run in which every fetch of ticker AAA
fails still produces all nine permutation keys. -/
theorem instrument_failure_isolated_witness :
    (run_scan failProvider refClock ["AAA", "BBB"]).map Prod.fst
      = permKeyStrings := by
  exact (instrument_failure_isolated failProvider ⟨2024, 6, 15⟩ refClock
    ["AAA", "BBB"] "AAA" (fun n => rfl) (fun lb => rfl)).1

/-- Claim C10 (confirmed): with a fixed reference date and fixed provider
responses the scan is deterministic — two runs produce identical result
structures — and each permutation bucket lists, in ticker-file order, the
records of exactly the tickers that produced one. -/
theorem scan_deterministic_ordered (p : Provider) (d : Date)
    (lines : List String) (c1 c2 : ℕ → Date)
    (h1 : ∀ n, c1 n = d) (h2 : ∀ n, c2 n = d) :
    run_scan p c1 lines = run_scan p c2 lines ∧
    run_scan p c1 lines = permPairs.map (fun pr => (permKey pr.1 pr.2,
      (parseTickers lines).filterMap (tickRecord p d pr.1 pr.2))) := by
  have q1 := run_scan_char p d c1 h1 lines
  have q2 := run_scan_char p d c2 h2 lines
  exact ⟨q1.trans q2.symm, q1⟩

/-- Witness for claim C10: two concrete runs whose clocks both always
report 2024-06-15 produce identical result structures. -/
theorem scan_deterministic_witness :
    run_scan failProvider refClock ["AAA", "BBB"] =
      run_scan failProvider
        (fun n => if n % 2 = 0 then ⟨2024, 6, 15⟩ else ⟨2024, 6, 15⟩)
        ["AAA", "BBB"] := by
  exact (scan_deterministic_ordered failProvider ⟨2024, 6, 15⟩ ["AAA", "BBB"]
    refClock (fun n => if n % 2 = 0 then ⟨2024, 6, 15⟩ else ⟨2024, 6, 15⟩)
    (fun n => rfl) (fun n => ite_self _)).1

/-- Initial-value lower bound for a running maximum. -/
theorem le_foldl_max_init : ∀ (xs : List ℝ) (a b : ℝ), a ≤ b → a ≤ xs.foldl max b := by
  intro xs
  induction xs with
  | nil => intro a b h; simpa using h
  | cons y ys ih =>
    intro a b h
    exact ih a (max b y) (le_trans h (le_max_left b y))

/-- Every member is below the running maximum. -/
theorem mem_le_foldl_max : ∀ (xs : List ℝ) (b r : ℝ), r ∈ xs → r ≤ xs.foldl max b := by
  intro xs
  induction xs with
  | nil => intro b r h; cases h
  | cons y ys ih =>
    intro b r h
    rcases List.mem_cons.mp h with heq | hmem
    · subst heq
      exact le_foldl_max_init ys r (max b r) (le_max_right b r)
    · exact ih (max b y) r hmem

/-- A common upper bound dominates the running maximum. -/
theorem foldl_max_le : ∀ (xs : List ℝ) (b u : ℝ), b ≤ u → (∀ y ∈ xs, y ≤ u) →
    xs.foldl max b ≤ u := by
  intro xs
  induction xs with
  | nil => intro b u h _; simpa using h
  | cons y ys ih =>
    intro b u hb hall
    exact ih (max b y) u (max_le hb (hall y (List.mem_cons_self y ys)))
      (fun z hz => hall z (List.mem_cons_of_mem y hz))

/-- Initial-value upper bound for a running minimum. -/
theorem foldl_min_init_le : ∀ (xs : List ℝ) (a b : ℝ), b ≤ a → xs.foldl min b ≤ a := by
  intro xs
  induction xs with
  | nil => intro a b h; simpa using h
  | cons y ys ih =>
    intro a b h
    exact ih a (min b y) (le_trans (min_le_left b y) h)

/-- The running minimum is below every member. -/
theorem foldl_min_le_mem : ∀ (xs : List ℝ) (b r : ℝ), r ∈ xs → xs.foldl min b ≤ r := by
  intro xs
  induction xs with
  | nil => intro b r h; cases h
  | cons y ys ih =>
    intro b r h
    rcases List.mem_cons.mp h with heq | hmem
    · subst heq
      exact foldl_min_init_le ys r (min b r) (min_le_right b r)
    · exact ih (min b y) r hmem

/-- A common lower bound is below the running minimum. -/
theorem le_foldl_min : ∀ (xs : List ℝ) (b u : ℝ), u ≤ b → (∀ y ∈ xs, u ≤ y) →
    u ≤ xs.foldl min b := by
  intro xs
  induction xs with
  | nil => intro b u h _; simpa using h
  | cons y ys ih =>
    intro b u hb hall
    exact ih (min b y) u (le_min hb (hall y (List.mem_cons_self y ys)))
      (fun z hz => hall z (List.mem_cons_of_mem y hz))

/-- Every member of a nonempty list is bounded by `listMax`. -/
theorem mem_le_listMax (prs : List ℝ) (r : ℝ) (h : r ∈ prs) : r ≤ listMax prs := by
  cases prs with
  | nil => cases h
  | cons x xs =>
    rcases List.mem_cons.mp h with heq | hmem
    · subst heq
      exact le_foldl_max_init xs r r (le_refl r)
    · exact mem_le_foldl_max xs x r hmem

/-- `listMin` is below every member of a nonempty list. -/
theorem listMin_le_mem (prs : List ℝ) (r : ℝ) (h : r ∈ prs) : listMin prs ≤ r := by
  cases prs with
  | nil => cases h
  | cons x xs =>
    rcases List.mem_cons.mp h with heq | hmem
    · subst heq
      exact foldl_min_init_le xs r r (le_refl r)
    · exact foldl_min_le_mem xs x r hmem

/-- The script's win rate is never negative. -/
theorem winRateOf_nonneg (prs : List ℝ) : 0 ≤ winRateOf prs := by
  unfold winRateOf
  have h1 : (0 : ℝ) ≤ ((prs.filter (fun r => decide (0 < r))).length : ℝ) := by
    exact_mod_cast Nat.zero_le _
  have h2 : (0 : ℝ) ≤ (prs.length : ℝ) := by exact_mod_cast Nat.zero_le _
  have := div_nonneg h1 h2
  nlinarith

/-- The script's win rate never exceeds 100. -/
theorem winRateOf_le_100 (prs : List ℝ) : winRateOf prs ≤ 100 := by
  unfold winRateOf
  rcases Nat.eq_zero_or_pos prs.length with hz | hpos
  · rw [hz]
    norm_num
  · have hn : (0 : ℝ) < (prs.length : ℝ) := by exact_mod_cast hpos
    have hk : ((prs.filter (fun r => decide (0 < r))).length : ℝ) ≤ (prs.length : ℝ) := by
      exact_mod_cast List.length_filter_le _ prs
    have hdiv : ((prs.filter (fun r => decide (0 < r))).length : ℝ) / (prs.length : ℝ) ≤ 1 :=
      (div_le_one hn).mpr hk
    nlinarith

/-- The mean of a nonempty list lies between its minimum and its maximum. -/
theorem listMin_le_meanOf_le_listMax (prs : List ℝ) (h : prs ≠ []) :
    listMin prs ≤ meanOf prs ∧ meanOf prs ≤ listMax prs := by
  have hlen : 0 < (prs.length : ℝ) := by
    have : 0 < prs.length := List.length_pos.mpr h
    exact_mod_cast this
  have hup : prs.sum ≤ prs.length • listMax prs :=
    List.sum_le_card_nsmul prs (listMax prs) (fun x hx => mem_le_listMax prs x hx)
  have hlow : prs.length • listMin prs ≤ prs.sum :=
    List.card_nsmul_le_sum prs (listMin prs) (fun x hx => listMin_le_mem prs x hx)
  rw [nsmul_eq_mul] at hup hlow
  unfold meanOf
  constructor
  · rw [le_div_iff₀ hlen]
    nlinarith
  · rw [div_le_iff₀ hlen]
    nlinarith

/-- On a list of zeros the script's four statistics are all zero. -/
theorem zero_returns_zero_stats (prs : List ℝ) (h0 : ∀ r ∈ prs, r = 0) :
    winRateOf prs = 0 ∧ meanOf prs = 0 ∧
    (prs ≠ [] → listMax prs = 0 ∧ listMin prs = 0) := by
  have hfil : prs.filter (fun r => decide (0 < r)) = [] := by
    rw [List.filter_eq_nil_iff]
    intro a ha
    rw [h0 a ha]
    simp
  have hsum : prs.sum = 0 := List.sum_eq_zero h0
  refine ⟨?_, ?_, ?_⟩
  · unfold winRateOf
    rw [hfil]
    simp
  · unfold meanOf
    rw [hsum]
    simp
  · intro hne
    have hmax1 : listMax prs ≤ 0 := by
      cases prs with
      | nil => exact absurd rfl hne
      | cons x xs =>
        exact foldl_max_le xs x 0 (le_of_eq (h0 x (List.mem_cons_self x xs)))
          (fun y hy => le_of_eq (h0 y (List.mem_cons_of_mem x hy)))
    have hmin1 : 0 ≤ listMin prs := by
      cases prs with
      | nil => exact absurd rfl hne
      | cons x xs =>
        exact le_foldl_min xs x 0 (ge_of_eq (h0 x (List.mem_cons_self x xs)))
          (fun y hy => ge_of_eq (h0 y (List.mem_cons_of_mem x hy)))
    obtain ⟨r, hr⟩ := List.exists_mem_of_ne_nil prs hne
    have hmax2 : (0 : ℝ) ≤ listMax prs := by
      have := mem_le_listMax prs r hr
      rw [h0 r hr] at this
      exact this
    have hmin2 : listMin prs ≤ 0 := by
      have := listMin_le_mem prs r hr
      rw [h0 r hr] at this
      exact this
    exact ⟨le_antisymm hmax1 hmax2, le_antisymm hmin2 hmin1⟩

/-- On a flat series (all prices equal) every recorded log return is 0. -/
theorem yearLogReturn_flat (prices : List (Date × ℚ))
    (hflat : ∀ a ∈ prices, ∀ b ∈ prices, a.2 = b.2) (fd : ℕ) (today : Date)
    (y : ℕ) (lr : ℝ) (h : yearLogReturn prices fd today y = some lr) :
    lr = 0 := by
  simp only [yearLogReturn] at h
  split_ifs at h with h1 h2
  · have hsi : searchsorted (prices.map Prod.fst) ⟨y, today.month, today.day⟩
        < prices.length := by omega
    have hmem1 : prices.getD (searchsorted (prices.map Prod.fst)
        ⟨y, today.month, today.day⟩) default ∈ prices := by
      rw [List.getD_eq_getElem prices default hsi]
      exact List.getElem_mem hsi
    have hmem2 : prices.getD (searchsorted (prices.map Prod.fst)
        ⟨y, today.month, today.day⟩ + fd) default ∈ prices := by
      rw [List.getD_eq_getElem prices default h1]
      exact List.getElem_mem h1
    have hpeq : (prices.getD (searchsorted (prices.map Prod.fst)
        ⟨y, today.month, today.day⟩ + fd) default).2 =
        (prices.getD (searchsorted (prices.map Prod.fst)
        ⟨y, today.month, today.day⟩) default).2 :=
      hflat _ hmem2 _ hmem1
    have hlr := Option.some.inj h
    rw [hpeq] at hlr
    have hz : (prices.getD (searchsorted (prices.map Prod.fst)
        ⟨y, today.month, today.day⟩) default).2 ≠ 0 := ne_of_gt h2
    have hcast : ((prices.getD (searchsorted (prices.map Prod.fst)
        ⟨y, today.month, today.day⟩) default).2 : ℝ) ≠ 0 := by
      exact_mod_cast hz
    rw [div_self hcast, Real.log_one] at hlr
    exact hlr.symm

/-- On a flat series every accumulated log return is 0. -/
theorem collectReturns_flat (prices : List (Date × ℚ))
    (hflat : ∀ a ∈ prices, ∀ b ∈ prices, a.2 = b.2) (fd : ℕ) (today : Date) :
    ∀ years rs, collectReturns prices fd today years = Except.ok rs →
      ∀ x ∈ rs, x = 0 := by
  intro years
  induction years with
  | nil =>
    intro rs h
    have hnil : rs = [] := (Except.ok.inj h).symm
    subst hnil
    intro x hx
    cases hx
  | cons y ys ih =>
    intro rs h
    simp only [collectReturns] at h
    split_ifs at h with hv
    · revert h
      cases hyr : yearLogReturn prices fd today y with
      | none =>
        cases hcr : collectReturns prices fd today ys with
        | error e =>
          intro h
          exact absurd h (by simp)
        | ok rest =>
          intro h
          dsimp only at h
          have hinj : rest = rs := Except.ok.inj h
          rw [← hinj]
          exact ih rest hcr
      | some lr =>
        cases hcr : collectReturns prices fd today ys with
        | error e =>
          intro h
          exact absurd h (by simp)
        | ok rest =>
          intro h
          dsimp only at h
          have hinj : lr :: rest = rs := Except.ok.inj h
          intro x hx
          rw [← hinj] at hx
          rcases List.mem_cons.mp hx with heq | hmem
          · subst heq
            exact yearLogReturn_flat prices hflat fd today y x hyr
          · exact ih rest hcr x hmem

/-- The accumulated returns never outnumber the years iterated over. -/
theorem collectReturns_length (prices : List (Date × ℚ)) (fd : ℕ) (today : Date) :
    ∀ years rs, collectReturns prices fd today years = Except.ok rs →
      rs.length ≤ years.length := by
  intro years
  induction years with
  | nil =>
    intro rs h
    have hnil : rs = [] := (Except.ok.inj h).symm
    subst hnil
    simp
  | cons y ys ih =>
    intro rs h
    simp only [collectReturns] at h
    split_ifs at h with hv
    · revert h
      cases hyr : yearLogReturn prices fd today y with
      | none =>
        cases hcr : collectReturns prices fd today ys with
        | error e =>
          intro h
          exact absurd h (by simp)
        | ok rest =>
          intro h
          dsimp only at h
          have hinj : rest = rs := Except.ok.inj h
          rw [← hinj]
          exact le_trans (ih rest hcr) (by simp)
      | some lr =>
        cases hcr : collectReturns prices fd today ys with
        | error e =>
          intro h
          exact absurd h (by simp)
        | ok rest =>
          intro h
          dsimp only at h
          have hinj : lr :: rest = rs := Except.ok.inj h
          rw [← hinj]
          simpa using ih rest hcr

/-- Inversion of the metrics computation: a produced dictionary comes from
a nonempty series and a nonempty accumulated-returns list, and its five
fields are the script's statistics of the percent returns. -/
theorem calculate_some_inv (prices : List (Date × ℚ)) (fw : ℕ) (today : Date)
    (m : Metrics)
    (hm : calculate_metrics_for_ticker prices fw today = Except.ok (some m)) :
    prices ≠ [] ∧ ∃ rs, collectReturns prices (fw * 21) today
        (yearsRange (minYear prices) today.year) = Except.ok rs ∧ rs ≠ [] ∧
      m = ⟨winRateOf (percentReturns rs), meanOf (percentReturns rs),
        listMax (percentReturns rs), listMin (percentReturns rs), rs.length⟩ := by
  cases prices with
  | nil => exact absurd hm (by simp [calculate_metrics_for_ticker])
  | cons a l =>
    refine ⟨List.cons_ne_nil a l, ?_⟩
    simp only [calculate_metrics_for_ticker] at hm
    revert hm
    cases hcr : collectReturns (a :: l) (fw * 21) today
        (yearsRange (minYear (a :: l)) today.year) with
    | error e =>
      intro hm
      simp at hm
    | ok rs =>
      cases rs with
      | nil =>
        intro hm
        simp at hm
      | cons x xs =>
        intro hm
        simp only [List.isEmpty_cons, Bool.false_eq_true, if_false] at hm
        have hmx := Except.ok.inj hm
        have hmx2 := Option.some.inj hmx
        exact ⟨x :: xs, rfl, List.cons_ne_nil x xs, hmx2.symm⟩

/-- With strictly increasing dates, the minimum calendar year of the index
is the year of the earliest (first) sample. -/
theorem minYear_eq_head_year (prices : List (Date × ℚ)) (hne : prices ≠ [])
    (hs : DatesSorted (prices.map Prod.fst)) :
    minYear prices = (prices.headD default).1.year := by
  cases prices with
  | nil => exact absurd rfl hne
  | cons q ps =>
    have hall : ∀ p ∈ ps, q.1.year ≤ p.1.year := by
      intro p hp
      have hpair : dlt q.1 p.1 = true := by
        unfold DatesSorted at hs
        rw [List.map_cons] at hs
        exact (List.pairwise_cons.mp hs).1 p.1 (List.mem_map.mpr ⟨p, hp, rfl⟩)
      rw [dlt_iff] at hpair
      omega
    have hfold : ∀ (l : List (Date × ℚ)) (a : ℕ), (∀ p ∈ l, a ≤ p.1.year) →
        l.foldl (fun acc r => Nat.min acc r.1.year) a = a := by
      intro l
      induction l with
      | nil => intro a _; rfl
      | cons p l ihl =>
        intro a hall2
        simp only [List.foldl_cons]
        have hmin : a.min p.1.year = a := by
          have hle := hall2 p (List.mem_cons_self p l)
          show min a p.1.year = a
          exact min_eq_left hle
        rw [hmin]
        exact ihl a (fun r hr => hall2 r (List.mem_cons_of_mem p hr))
    show minYear (q :: ps) = q.1.year
    unfold minYear
    exact hfold ps q.1.year hall

/-- Claim C9 (confirmed): every produced metrics dictionary has a win rate
in [0, 100], at least one contributing year, no more contributing years
than `today.year` minus the year of the series' earliest sample, and
`maxLoss ≤ avgReturn ≤ maxProfit`. -/
theorem produced_metrics_invariants (prices : List (Date × ℚ)) (fw : ℕ)
    (today : Date) (m : Metrics) (hs : DatesSorted (prices.map Prod.fst))
    (hm : calculate_metrics_for_ticker prices fw today = Except.ok (some m)) :
    0 ≤ m.winRate ∧ m.winRate ≤ 100 ∧ 1 ≤ m.yearsOfData ∧
    m.yearsOfData ≤ today.year - (prices.headD default).1.year ∧
    m.maxLoss ≤ m.avgReturn ∧ m.avgReturn ≤ m.maxProfit := by
  obtain ⟨hne, rs, hcr, hrs_ne, hmeq⟩ := calculate_some_inv prices fw today m hm
  have hpne : percentReturns rs ≠ [] := by
    unfold percentReturns
    intro hcon
    exact hrs_ne (List.map_eq_nil_iff.mp hcon)
  have hbetween := listMin_le_meanOf_le_listMax (percentReturns rs) hpne
  subst hmeq
  refine ⟨winRateOf_nonneg _, winRateOf_le_100 _, ?_, ?_, hbetween.1, hbetween.2⟩
  · have hpos : 0 < rs.length := List.length_pos.mpr hrs_ne
    exact hpos
  · have hlen := collectReturns_length prices (fw * 21) today _ rs hcr
    rw [yearsRange, List.length_range'] at hlen
    rw [← minYear_eq_head_year prices hne hs]
    exact hlen

/-- A concrete strictly increasing 22-sample series at constant price 3. -/
def pricesC9 : List (Date × ℚ) :=
  [(⟨2023, 6, 15⟩, 3),
   (⟨2023, 6, 16⟩, 3),
   (⟨2023, 6, 17⟩, 3),
   (⟨2023, 6, 18⟩, 3),
   (⟨2023, 6, 19⟩, 3),
   (⟨2023, 6, 20⟩, 3),
   (⟨2023, 6, 21⟩, 3),
   (⟨2023, 6, 22⟩, 3),
   (⟨2023, 6, 23⟩, 3),
   (⟨2023, 6, 24⟩, 3),
   (⟨2023, 6, 25⟩, 3),
   (⟨2023, 6, 26⟩, 3),
   (⟨2023, 6, 27⟩, 3),
   (⟨2023, 6, 28⟩, 3),
   (⟨2023, 6, 29⟩, 3),
   (⟨2023, 6, 30⟩, 3),
   (⟨2023, 7, 1⟩, 3),
   (⟨2023, 7, 2⟩, 3),
   (⟨2023, 7, 3⟩, 3),
   (⟨2023, 7, 4⟩, 3),
   (⟨2023, 7, 5⟩, 3),
   (⟨2023, 7, 6⟩, 3)]

/-- Witness for claim C9: the metrics produced from a concrete sorted
series satisfy every stated bound. -/
theorem produced_metrics_invariants_witness :
    0 ≤ recWinRate (calculate_metrics_for_ticker pricesC9 1 ⟨2024, 6, 15⟩) ∧
    recWinRate (calculate_metrics_for_ticker pricesC9 1 ⟨2024, 6, 15⟩) ≤ 100 ∧
    1 ≤ recYears (calculate_metrics_for_ticker pricesC9 1 ⟨2024, 6, 15⟩) ∧
    recYears (calculate_metrics_for_ticker pricesC9 1 ⟨2024, 6, 15⟩) ≤ 2024 - 2023 ∧
    recMaxLoss (calculate_metrics_for_ticker pricesC9 1 ⟨2024, 6, 15⟩) ≤
      recAvg (calculate_metrics_for_ticker pricesC9 1 ⟨2024, 6, 15⟩) ∧
    recAvg (calculate_metrics_for_ticker pricesC9 1 ⟨2024, 6, 15⟩) ≤
      recMaxProfit (calculate_metrics_for_ticker pricesC9 1 ⟨2024, 6, 15⟩) := by
  obtain ⟨m, hm⟩ : ∃ m, calculate_metrics_for_ticker pricesC9 1 ⟨2024, 6, 15⟩
      = Except.ok (some m) := ⟨_, rfl⟩
  have h := produced_metrics_invariants pricesC9 1 ⟨2024, 6, 15⟩ m
    (by unfold DatesSorted; decide) hm
  rw [hm]
  exact ⟨h.1, h.2.1, h.2.2.1, h.2.2.2.1, h.2.2.2.2.1, h.2.2.2.2.2⟩

/-- Claim C7 (confirmed): on a flat series every computed percentage return
is exactly 0, and any produced metrics dictionary has win rate 0 (the win
rate counts only strictly positive returns), average 0, max profit 0 and
max loss 0. -/
theorem flat_series_zero_metrics (prices : List (Date × ℚ)) (fw : ℕ)
    (today : Date) (m : Metrics)
    (hflat : ∀ a ∈ prices, ∀ b ∈ prices, a.2 = b.2)
    (hm : calculate_metrics_for_ticker prices fw today = Except.ok (some m)) :
    m.winRate = 0 ∧ m.avgReturn = 0 ∧ m.maxProfit = 0 ∧ m.maxLoss = 0 ∧
    (∀ rs, collectReturns prices (fw * 21) today
        (yearsRange (minYear prices) today.year) = Except.ok rs →
      ∀ x ∈ percentReturns rs, x = 0) := by
  have hpct : ∀ rs, collectReturns prices (fw * 21) today
      (yearsRange (minYear prices) today.year) = Except.ok rs →
      ∀ x ∈ percentReturns rs, x = 0 := by
    intro rs hrs x hx
    unfold percentReturns at hx
    obtain ⟨lr, hlrm, hxeq⟩ := List.mem_map.mp hx
    have hlr0 : lr = 0 :=
      collectReturns_flat prices hflat (fw * 21) today _ rs hrs lr hlrm
    rw [← hxeq, hlr0]
    simp [Real.exp_zero]
  obtain ⟨hne, rs, hcr, hrs_ne, hmeq⟩ := calculate_some_inv prices fw today m hm
  have hz : ∀ x ∈ percentReturns rs, x = 0 := hpct rs hcr
  have hstats := zero_returns_zero_stats (percentReturns rs) hz
  have hpne : percentReturns rs ≠ [] := by
    unfold percentReturns
    intro hcon
    exact hrs_ne (List.map_eq_nil_iff.mp hcon)
  subst hmeq
  exact ⟨hstats.1, hstats.2.1, (hstats.2.2 hpne).1, (hstats.2.2 hpne).2, hpct⟩

/-- A concrete flat 22-sample series at constant price 7. -/
def pricesC7 : List (Date × ℚ) :=
  [(⟨2023, 6, 15⟩, 7),
   (⟨2023, 6, 16⟩, 7),
   (⟨2023, 6, 17⟩, 7),
   (⟨2023, 6, 18⟩, 7),
   (⟨2023, 6, 19⟩, 7),
   (⟨2023, 6, 20⟩, 7),
   (⟨2023, 6, 21⟩, 7),
   (⟨2023, 6, 22⟩, 7),
   (⟨2023, 6, 23⟩, 7),
   (⟨2023, 6, 24⟩, 7),
   (⟨2023, 6, 25⟩, 7),
   (⟨2023, 6, 26⟩, 7),
   (⟨2023, 6, 27⟩, 7),
   (⟨2023, 6, 28⟩, 7),
   (⟨2023, 6, 29⟩, 7),
   (⟨2023, 6, 30⟩, 7),
   (⟨2023, 7, 1⟩, 7),
   (⟨2023, 7, 2⟩, 7),
   (⟨2023, 7, 3⟩, 7),
   (⟨2023, 7, 4⟩, 7),
   (⟨2023, 7, 5⟩, 7),
   (⟨2023, 7, 6⟩, 7)]

/-- Witness for claim C7: the metrics produced from a concrete flat series
are all zero. -/
theorem flat_series_zero_witness :
    recWinRate (calculate_metrics_for_ticker pricesC7 1 ⟨2024, 6, 15⟩) = 0 ∧
    recAvg (calculate_metrics_for_ticker pricesC7 1 ⟨2024, 6, 15⟩) = 0 ∧
    recMaxProfit (calculate_metrics_for_ticker pricesC7 1 ⟨2024, 6, 15⟩) = 0 ∧
    recMaxLoss (calculate_metrics_for_ticker pricesC7 1 ⟨2024, 6, 15⟩) = 0 := by
  obtain ⟨m, hm⟩ : ∃ m, calculate_metrics_for_ticker pricesC7 1 ⟨2024, 6, 15⟩
      = Except.ok (some m) := ⟨_, rfl⟩
  have h := flat_series_zero_metrics pricesC7 1 ⟨2024, 6, 15⟩ m (by decide) hm
  rw [hm]
  exact ⟨h.1, h.2.1, h.2.2.1, h.2.2.2.1⟩

/-- Claim C8 (confirmed): a metrics record is produced for a ticker and
permutation exactly when at least one valid return was accumulated; with
zero valid returns `calculate_metrics_for_ticker` reports no data (`None`),
and the caller appends nothing and raises no error, finishing the ticker
iteration normally. -/
theorem record_iff_valid_returns (p : Provider) (c : ℕ → Date)
    (cnt lb fw : ℕ) (t : String) (prices : List (Date × ℚ)) (rs : List ℝ)
    (hp : p t lb (c cnt) = Except.ok prices) (hne : prices ≠ [])
    (hrs : collectReturns prices (fw * 21) (c (cnt + 1))
      (yearsRange (minYear prices) (c (cnt + 1)).year) = Except.ok rs) :
    (calculate_metrics_for_ticker prices fw (c (cnt + 1)) = Except.ok none ↔
      rs = []) ∧
    ((scanTicker p c cnt lb fw t).2.2.isSome = true ↔ rs ≠ []) ∧
    (rs = [] → scanTicker p c cnt lb fw t = (cnt + 2, [(t, lb)], none)) := by
  have hcalc : calculate_metrics_for_ticker prices fw (c (cnt + 1)) =
      (if rs.isEmpty then Except.ok none else Except.ok (some
        ⟨winRateOf (percentReturns rs), meanOf (percentReturns rs),
         listMax (percentReturns rs), listMin (percentReturns rs), rs.length⟩)) := by
    cases prices with
    | nil => exact absurd rfl hne
    | cons a l =>
      simp only [calculate_metrics_for_ticker]
      rw [hrs]
      rfl
  refine ⟨?_, ?_, ?_⟩
  · rw [hcalc]
    cases rs with
    | nil => simp
    | cons x xs => simp
  · unfold scanTicker
    rw [hp]
    dsimp only
    rw [hcalc]
    cases rs with
    | nil => simp
    | cons x xs => simp
  · intro hrs_nil
    subst hrs_nil
    unfold scanTicker
    rw [hp]
    dsimp only
    rw [hcalc]
    rfl

/-- A concrete 5-sample series, too short for any one-month forward
window. -/
def pricesC8 : List (Date × ℚ) :=
  [(⟨2023, 6, 15⟩, 4), (⟨2023, 6, 16⟩, 4), (⟨2023, 6, 17⟩, 4),
   (⟨2023, 6, 18⟩, 4), (⟨2023, 6, 19⟩, 4)]

/-- A provider that always succeeds with the short series. -/
def shortProvider : Provider := fun _ _ _ => Except.ok pricesC8

/-- Witness for claim C8: on the short series no valid return accumulates,
the metrics computation reports no data, and the caller appends nothing. -/
theorem record_iff_valid_returns_witness :
    (scanTicker shortProvider refClock 0 5 1 "AAA").2.2 = none ∧
    calculate_metrics_for_ticker pricesC8 1 ⟨2024, 6, 15⟩ = Except.ok none := by
  have h := record_iff_valid_returns shortProvider refClock 0 5 1 "AAA"
    pricesC8 [] rfl (by decide) rfl
  constructor
  · rw [h.2.2 rfl]
  · exact h.1.mpr rfl
